import Mathlib

/-!
Shallow embedding of the language-table translation editor
(`language-table.js`): the view derivation engine (search filter, key
enumeration, sort, pagination, column rendering), the markup structure
reconciler (fingerprint extraction and reapplication), the edit-session
save decision, and the application state handlers.  Machine strings are
Lean `String`s; JS objects with string keys are association lists kept in
insertion order (JS objects preserve insertion order for string keys);
the DOM tree is an explicit `Node`/`NodeList` tree.  Browser primitives
used by the source (`textContent`, regex `test` of an escaped literal
pattern with the `i` flag, `DOMParser`) are modelled by their documented
semantics: tag stripping, case-insensitive substring containment, and
the explicit tree.
-/

namespace LanguageTable

/-- JS object / DOM attribute write semantics (`obj[key] = value`,
`element.setAttribute(name, value)`): if the key is already present it is
updated in place (keeping its position), otherwise the pair is appended. -/
def setAttribute (attrs : List (String × String)) (name val : String) :
    List (String × String) :=
  if attrs.any (fun a => a.1 == name) then
    attrs.map (fun a => if a.1 == name then (name, val) else a)
  else attrs ++ [(name, val)]

/-- Apply a recorded attribute map (in its insertion order) onto an existing
attribute list, one `setAttribute` per entry
(`Object.keys(attrs).forEach(name => el.setAttribute(name, attrs[name]))`). -/
def setAttrs (attrs : List (String × String)) (toApply : List (String × String)) :
    List (String × String) :=
  toApply.foldl (fun acc kv => setAttribute acc kv.1 kv.2) attrs

/-- One language entry of the data source:
`{ LanguageTwoLetter: "en", Translations: { key: markupValue, ... } }`. -/
structure LanguageEntry where
  LanguageTwoLetter : String
  Translations : List (String × String)
deriving Repr, DecidableEq

instance : Inhabited LanguageEntry := ⟨⟨"", []⟩⟩

/-- `lang.Translations[key] || ''` : the stored markup value of `key` in this
language, or the empty string when the key is absent (an empty stored string
is also falsy in JS and likewise yields `''`). -/
def lookupValue (lang : LanguageEntry) (key : String) : String :=
  match lang.Translations.lookup key with
  | some v => v
  | none => ""

/-- One step of JS `Set` insertion: add `k` at the end unless already present. -/
def insertKey (acc : List String) (k : String) : List String :=
  if k ∈ acc then acc else acc ++ [k]

/-- `getAllKeys(data)`: the union of the keys of every language entry of the
given projection, deduplicated, in first-occurrence order (a JS `Set` filled
by iterating the entries and, per entry, `Object.keys` in insertion order). -/
def getAllKeys (data : List LanguageEntry) : List String :=
  data.foldl (fun acc lang => lang.Translations.foldl (fun a kv => insertKey a kv.1) acc) []

/-- JS `String.prototype.trim()`: strip leading and trailing whitespace.
(The byte-position-based `String.trim` of the library is avoided so that
terms reduce; this character-list version is its semantics.) -/
def jsTrim (s : String) : String :=
  ⟨((s.data.dropWhile Char.isWhitespace).reverse.dropWhile Char.isWhitespace).reverse⟩

/-- JS `String.prototype.toLowerCase()`, per character.  (The
byte-position-based `String.toLower` of the library is avoided so that terms
reduce; this character-list version is its semantics.) -/
def jsToLower (s : String) : String :=
  ⟨s.data.map Char.toLower⟩

/-- Tag-stripping state machine: drop every `<...>` span, keep the rest.
The flag says whether the scanner is currently inside a tag. -/
def stripTagsAux : List Char → Bool → List Char
  | [], _ => []
  | c :: cs, true => if c = '>' then stripTagsAux cs false else stripTagsAux cs true
  | c :: cs, false => if c = '<' then stripTagsAux cs true else c :: stripTagsAux cs false

/-- `getTextFromHTML(html)`: the rendered text of a markup string.  The source
loads the string into a detached `div` and reads `textContent`; this is
modelled as stripping the markup tags and keeping the character data. -/
def getTextFromHTML (html : String) : String :=
  ⟨stripTagsAux html.data false⟩

/-- The case-insensitive literal match performed by `getSearchResults`: the
source escapes every regex metacharacter of the search term and tests the
resulting pattern with the `i` flag (resetting `lastIndex` before each test),
which is exactly case-insensitive substring containment of the literal term. -/
def matchesQuery (query s : String) : Bool :=
  decide ((jsToLower query).data <:+: (jsToLower s).data)

/-- `getSearchResults()`: a blank (all-whitespace) search term returns the
working matrix unchanged; otherwise every language entry is mapped in place,
keeping only the key/value pairs where the term matches the key or the raw
markup value.  The escaped pattern is always a valid regex, so the source's
defensive catch-all branch (fall back to the working matrix) is unreachable. -/
def getSearchResults (working : List LanguageEntry) (searchQuery : String) :
    List LanguageEntry :=
  if jsTrim searchQuery = "" then working
  else
    working.map fun lang =>
      { LanguageTwoLetter := lang.LanguageTwoLetter
        Translations := lang.Translations.filter fun kv =>
          matchesQuery searchQuery kv.1 || matchesQuery searchQuery kv.2 }

/-- Direction of the single active sort directive. -/
inductive SortDir where
  | asc
  | desc
deriving Repr, DecidableEq

/-- The string a key is compared by when sorting on `columnIndex`: the
rendered text of the value found in the working matrix at that column
(empty when the key is absent), lowercased
(`getTextFromHTML(modifiedDataSource[columnIndex].Translations[key] || '').toLowerCase()`). -/
def sortKey (working : List LanguageEntry) (columnIndex : Nat) (key : String) : String :=
  jsToLower (getTextFromHTML (lookupValue (working[columnIndex]?.getD default) key))

/-- The `le` relation realised by the source's comparator
(`textA < textB ? (asc ? -1 : 1) : textA > textB ? (asc ? 1 : -1) : 0`):
an element may stay before another exactly when the comparator is `≤ 0`. -/
def sortLe (working : List LanguageEntry) (columnIndex : Nat) (dir : SortDir)
    (keyA keyB : String) : Bool :=
  match dir with
  | .asc => !decide (sortKey working columnIndex keyB < sortKey working columnIndex keyA)
  | .desc => !decide (sortKey working columnIndex keyA < sortKey working columnIndex keyB)

/-- `applySortingToKeys(keys)`: no sort directive leaves the key list as
enumerated; otherwise the keys are stably sorted (`Array.prototype.sort` is
stable) by the rendered lowercased text of the working matrix column named by
the directive. -/
def applySortingToKeys (working : List LanguageEntry)
    (sortState : Option (Nat × SortDir)) (keys : List String) : List String :=
  match sortState with
  | none => keys
  | some (columnIndex, dir) => keys.mergeSort (sortLe working columnIndex dir)

/-- One rendered table cell: the column it belongs to, the displayed markup
value, and the collapse flag. -/
structure Cell where
  columnIndex : Nat
  value : String
  collapsed : Bool
deriving Repr, DecidableEq

/-- One rendered table row: the translation key and one cell per working
matrix entry. -/
structure Row where
  key : String
  cells : List Cell
deriving Repr, DecidableEq

/-- The view-affecting fields of the application state consumed by
`renderTable`. -/
structure ViewState where
  searchQuery : String
  isSearchActive : Bool
  sortState : Option (Nat × SortDir)
  collapsedColumns : List Nat
  currentPage : Nat
  rowsPerPage : Nat
deriving Repr, DecidableEq

/-- Render one row: one cell per entry of the working matrix (never the
projection), in working-matrix order, each sourcing its value from
`modifiedDataSource[langIndex].Translations[key] || ''` and flagged collapsed
when its index is collapsed. -/
def renderRow (working : List LanguageEntry) (collapsedColumns : List Nat)
    (key : String) : Row :=
  { key := key
    cells := (List.range working.length).map fun langIndex =>
      { columnIndex := langIndex
        value := lookupValue (working[langIndex]?.getD default) key
        collapsed := collapsedColumns.contains langIndex } }

/-- `renderTableBody(data)`: returns the rendered rows and the total row
count.  An empty projection renders nothing and reports zero rows; otherwise
the keys of the projection are enumerated, counted (before sorting and
slicing), sorted against the working matrix, sliced to the current page, and
rendered one row per key. -/
def renderTableBody (working : List LanguageEntry) (vs : ViewState)
    (data : List LanguageEntry) : List Row × Nat :=
  if data.length = 0 then ([], 0)
  else
    let allKeys := getAllKeys data
    let totalRows := allKeys.length
    let sortedKeys := applySortingToKeys working vs.sortState allKeys
    let paginatedKeys := (sortedKeys.drop ((vs.currentPage - 1) * vs.rowsPerPage)).take vs.rowsPerPage
    (paginatedKeys.map (renderRow working vs.collapsedColumns), totalRows)

/-- `state.isSearchActive ? getSearchResults() : modifiedDataSource` : the
projection the view is derived from. -/
def dataToRender (working : List LanguageEntry) (vs : ViewState) : List LanguageEntry :=
  if vs.isSearchActive then getSearchResults working vs.searchQuery else working

/-- `renderTable()`: derive the projection and render the body from it. -/
def renderTable (working : List LanguageEntry) (vs : ViewState) : List Row × Nat :=
  renderTableBody working vs (dataToRender working vs)

/-! ## Markup tree model

An explicit tree for parsed markup: the body of a `DOMParser` document is a
forest of element and text nodes.  Attributes are kept in document order. -/

mutual
inductive Node where
  | elem (tag : String) (attrs : List (String × String)) (children : NodeList)
  | text (s : String)
deriving Repr, DecidableEq

inductive NodeList where
  | nil
  | cons (head : Node) (tail : NodeList)
deriving Repr, DecidableEq
end

mutual
/-- DOM `textContent` of a node: the concatenated character data of all text
descendants, in document order. -/
def textContentN : Node → String
  | .elem _ _ c => textContentL c
  | .text s => s

/-- DOM `textContent` of a forest. -/
def textContentL : NodeList → String
  | .nil => ""
  | .cons n l => textContentN n ++ textContentL l
end

/-- Block-level tags that Quill typically converts to `<p>` (the source's
`blockTags` set). -/
def blockTags : List String :=
  ["p", "div", "section", "article", "header", "footer", "main",
   "aside", "nav", "figure", "figcaption", "address", "details",
   "summary", "blockquote", "pre", "h1", "h2", "h3", "h4", "h5", "h6"]

/-- Inline tags that Quill may strip or convert (the source's `inlineTags`
set, also the selector list of the inline reapplication query). -/
def inlineTags : List String :=
  ["span", "a", "abbr", "cite", "code", "mark", "time"]

/-- `getPreservableAttrs(element)`: the `id` attribute if present, then the
`class` attribute if present, then every `data-*` attribute in document
order — the insertion order of the object built by the source. -/
def getPreservableAttrs (attrs : List (String × String)) : List (String × String) :=
  (match attrs.lookup "id" with | some v => [("id", v)] | none => []) ++
  (match attrs.lookup "class" with | some v => [("class", v)] | none => []) ++
  attrs.filter (fun a => a.1.startsWith "data-")

/-- A recorded block-level element of the fingerprint. -/
structure BlockEntry where
  originalTag : String
  attrs : List (String × String)
  textContent : String
deriving Repr, DecidableEq

/-- A recorded inline element of the fingerprint. -/
structure InlineEntry where
  originalTag : String
  attrs : List (String × String)
  textContent : String
  parentTextContent : String
deriving Repr, DecidableEq

/-- The structural fingerprint returned by `extractHTMLAttributes`. -/
structure Fingerprint where
  blockElements : List (Option BlockEntry)
  inlineElements : List InlineEntry
deriving Repr, DecidableEq

/-- Block half of `extractHTMLAttributes`: walk the element children of the
body (`doc.body.children`, text nodes are not element children) in document
order; a block-tag element is recorded when it carries a preservable
attribute or a non-default tag (default block tag: `p`), else a `null`
placeholder keeps the positional alignment; an element whose tag is not in
the block set contributes nothing. -/
def extractBlockElements : NodeList → List (Option BlockEntry)
  | .nil => []
  | .cons (.text _) l => extractBlockElements l
  | .cons (.elem t a c) l =>
    if blockTags.contains t then
      (let pa := getPreservableAttrs a
       if pa ≠ [] ∨ t ≠ "p" then some ⟨t, pa, jsTrim (textContentL c)⟩ else none)
        :: extractBlockElements l
    else extractBlockElements l

mutual
/-- Inline half of `extractHTMLAttributes` on one node:
`doc.body.querySelectorAll('*')` visits every element in document order
(pre-order); an inline-tag element is recorded when it carries a preservable
attribute or a non-default tag (default inline tag: `span`).
`parentText` is the trimmed `textContent` of the parent element. -/
def extractInlinesN (parentText : String) : Node → List InlineEntry
  | .elem t a c =>
    let selfText := jsTrim (textContentL c)
    let pa := getPreservableAttrs a
    (if inlineTags.contains t ∧ (pa ≠ [] ∨ t ≠ "span")
     then [⟨t, pa, selfText, parentText⟩] else [])
      ++ extractInlinesL selfText c
  | .text _ => []

/-- Inline extraction over a forest of siblings sharing one parent. -/
def extractInlinesL (parentText : String) : NodeList → List InlineEntry
  | .nil => []
  | .cons n l => extractInlinesN parentText n ++ extractInlinesL parentText l
end

/-- `extractHTMLAttributes(html)`: the structural fingerprint of a markup
body.  The parent of the top-level elements is `doc.body`, whose
`textContent` is the whole body text.  (The source's guard for a blank input
string returns the empty fingerprint, which is also what the empty forest
produces.) -/
def extractHTMLAttributes (body : NodeList) : Fingerprint :=
  { blockElements := extractBlockElements body
    inlineElements := extractInlinesL (jsTrim (textContentL body)) body }

/-- `hasPreservableStructure(structure)`: some block entry is non-null or
some inline entry exists. -/
def hasPreservableStructure (st : Fingerprint) : Bool :=
  st.blockElements.any Option.isSome || !st.inlineElements.isEmpty

/-- Block half of `reapplyHTMLAttributes`: pair the element children of the
body positionally with the fingerprint's block entries (the loop stops at
the shorter of the two); a `null` entry leaves its element untouched; a
non-null entry substitutes the recorded tag when it differs (a fresh element
receiving the candidate's attributes and children) and then sets the
recorded attributes. -/
def applyBlockElements : List (Option BlockEntry) → NodeList → NodeList
  | _, .nil => .nil
  | entries, .cons (.text s) l => .cons (.text s) (applyBlockElements entries l)
  | [], .cons n l => .cons n l
  | none :: es, .cons (.elem t a c) l => .cons (.elem t a c) (applyBlockElements es l)
  | some e :: es, .cons (.elem t a c) l =>
      .cons (.elem e.originalTag (setAttrs a e.attrs) c) (applyBlockElements es l)

mutual
/-- Inline reapplication of one fingerprint entry, on one node: scan in
document order (pre-order, matching `querySelectorAll` order); the first
element of the inline tag set whose trimmed `textContent` equals the entry's
recorded text receives the entry — its tag is replaced by the recorded
original tag when different (keeping its current attributes and children)
and the recorded attributes are set on it — and the scan stops (`break`).
Returns the updated node and whether the entry was applied. -/
def applyInlineEntryN (e : InlineEntry) : Node → Node × Bool
  | .elem t a c =>
    if inlineTags.contains t && (jsTrim (textContentL c) == e.textContent) then
      (.elem e.originalTag (setAttrs a e.attrs) c, true)
    else
      let r := applyInlineEntryL e c
      (.elem t a r.1, r.2)
  | .text s => (.text s, false)

/-- Inline reapplication of one fingerprint entry over a forest: the head is
scanned (together with its whole subtree) before the tail. -/
def applyInlineEntryL (e : InlineEntry) : NodeList → NodeList × Bool
  | .nil => (.nil, false)
  | .cons n l =>
    let r := applyInlineEntryN e n
    if r.2 then (.cons r.1 l, true)
    else
      let r2 := applyInlineEntryL e l
      (.cons n r2.1, r2.2)
end

/-- Inline half of `reapplyHTMLAttributes`: the fingerprint entries are
processed one after another (`inlineElements.forEach`), each re-scanning the
current tree from scratch. -/
def applyInlineElements (entries : List InlineEntry) (body : NodeList) : NodeList :=
  entries.foldl (fun b e => (applyInlineEntryL e b).1) body

/-- `reapplyHTMLAttributes(html, originalStructure)`: when the fingerprint
has no non-null block entry and no inline entry the input markup is returned
unchanged (the source returns the very input string without parsing);
otherwise the block phase runs when some block entry is non-null and the
inline phase runs when some inline entry exists.  (The source's guard for a
falsy input string is the identity on the empty forest as well.) -/
def reapplyHTMLAttributes (st : Fingerprint) (body : NodeList) : NodeList :=
  let hasBlockChanges := st.blockElements.any Option.isSome
  let hasInlineChanges := !st.inlineElements.isEmpty
  if !hasBlockChanges && !hasInlineChanges then body
  else
    let b1 := if hasBlockChanges then applyBlockElements st.blockElements body else body
    if hasInlineChanges then applyInlineElements st.inlineElements b1 else b1

/-- Escape character data for serialization (`innerHTML` escapes `&`, `<`,
`>` in text nodes). -/
def escapeHTMLText (s : String) : String :=
  ⟨s.data.flatMap fun c =>
    if c = '&' then "&amp;".data
    else if c = '<' then "&lt;".data
    else if c = '>' then "&gt;".data
    else [c]⟩

/-- Escape an attribute value (`innerHTML` escapes `&` and `"`). -/
def escapeAttrValue (s : String) : String :=
  ⟨s.data.flatMap fun c =>
    if c = '&' then "&amp;".data
    else if c = '"' then "&quot;".data
    else [c]⟩

/-- Serialize one attribute as ` name="value"`. -/
def serializeAttr (kv : String × String) : String :=
  " " ++ kv.1 ++ "=\"" ++ escapeAttrValue kv.2 ++ "\""

mutual
/-- Serialization of one node back to markup (`doc.body.innerHTML`). -/
def serializeNode : Node → String
  | .elem t a c =>
      "<" ++ t ++ String.join (a.map serializeAttr) ++ ">"
        ++ serializeNodeList c ++ "</" ++ t ++ ">"
  | .text s => escapeHTMLText s

/-- Serialization of a forest back to markup. -/
def serializeNodeList : NodeList → String
  | .nil => ""
  | .cons n l => serializeNode n ++ serializeNodeList l
end

/-- Flat per-element record used to state properties of the reconciler: the
element's tag, its attribute list, and its trimmed `textContent`. -/
structure ElemInfo where
  tag : String
  attrs : List (String × String)
  ttext : String
deriving Repr, DecidableEq

mutual
/-- The `ElemInfo` records of the elements of one node's subtree in document
order (pre-order, the order `querySelectorAll('*')` returns). -/
def elemInfoN : Node → List ElemInfo
  | .elem t a c => ⟨t, a, jsTrim (textContentL c)⟩ :: elemInfoL c
  | .text _ => []

/-- The `ElemInfo` records of the elements of a forest in document order. -/
def elemInfoL : NodeList → List ElemInfo
  | .nil => []
  | .cons n l => elemInfoN n ++ elemInfoL l
end

/-- The candidate test of the inline reapplication scan: the element is of
the known inline tag set and its trimmed text equals the entry's recorded
text. -/
def inlineMatches (e : InlineEntry) (info : ElemInfo) : Bool :=
  inlineTags.contains info.tag && (info.ttext == e.textContent)

/-- The effect of applying an inline fingerprint entry on the matched
element's record: tag replaced by the recorded original tag, recorded
attributes set over the current ones, text content untouched. -/
def transformInfo (e : InlineEntry) (info : ElemInfo) : ElemInfo :=
  ⟨e.originalTag, setAttrs info.attrs e.attrs, info.ttext⟩

/-! ## Edit session: the save decision -/

/-- The `insert` payload of a Quill delta op: a text run or a non-text embed
(image, video, ...). -/
inductive QuillInsert where
  | str (s : String)
  | embed
deriving Repr, DecidableEq

/-- One op of a Quill delta: its attribute object (empty list when absent)
and its insert payload. -/
structure QuillOp where
  attributes : List (String × String)
  insert : QuillInsert
deriving Repr, DecidableEq

/-- `deltaHasFormatting(delta)`: some op carries a formatting attribute —
any attribute other than `id`, `class` and `data-*` — or a non-text
insert. -/
def deltaHasFormatting (ops : List QuillOp) : Bool :=
  ops.any fun op =>
    (op.attributes.filter fun a =>
        !(a.1 == "id" || a.1 == "class") && !a.1.startsWith "data-").length > 0
    || (match op.insert with | .str _ => false | .embed => true)

/-- `currentText.replace(/\n$/, '')`: drop one trailing newline when
present (Quill's `getText()` always appends one). -/
def stripTrailingNewline (s : String) : String :=
  if s.data.getLast? = some '\n' then ⟨s.data.dropLast⟩ else s

/-- The transient edit context captured by `openEditModal`. -/
structure EditContext where
  key : String
  langIndex : Nat
  originalValue : String
  originalAttributes : Fingerprint
  originalText : String
  codeViewInitialHTML : Option String
deriving Repr, DecidableEq

/-- The editing-surface readouts consumed by `handleModalSave`: the active
mode, the code-view textarea content, the Quill delta (`getContents()`), the
rendered plain text (`getText()`), and the parsed form of the normalized
markup the editor reports (`getSemanticHTML()`; the string the editor hands
back is its serialization). -/
structure EditorInput where
  isCodeViewActive : Bool
  codeViewHTML : String
  delta : List QuillOp
  currentText : String
  semanticBody : NodeList
deriving Repr, DecidableEq

/-- JS `a || b` on an optional string: `b` when `a` is absent or empty
(empty strings are falsy). -/
def jsOrString (a : Option String) (b : String) : String :=
  match a with
  | some s => if s = "" then b else s
  | none => b

/-- The value `handleModalSave` persists, per the six-case decision table.
Code view: an unchanged textarea (against the content displayed when code
view opened) keeps `originalValue`; any edit is persisted verbatim, whether
or not it contains markup tags (the tag test only decides whether the
fingerprint is re-derived for a later rich-mode pass, which does not change
the persisted value).  Design view: with formatting applied the editor's
normalized markup is persisted, passed through `reapplyHTMLAttributes` when
the fingerprint has preservable structure; with no formatting, an unchanged
rendered text keeps `originalValue` and a changed one is persisted as plain
text with the editor's trailing newline removed. -/
def decideNewValue (ec : EditContext) (inp : EditorInput) : String :=
  if inp.isCodeViewActive then
    let codeViewBaseline := jsOrString ec.codeViewInitialHTML ec.originalValue
    if inp.codeViewHTML = codeViewBaseline then ec.originalValue
    else inp.codeViewHTML
  else
    if deltaHasFormatting inp.delta then
      if hasPreservableStructure ec.originalAttributes then
        serializeNodeList (reapplyHTMLAttributes ec.originalAttributes inp.semanticBody)
      else serializeNodeList inp.semanticBody
    else if inp.currentText = ec.originalText then ec.originalValue
    else stripTrailingNewline inp.currentText

/-! ## Application state and handlers -/

/-- The application state: the frozen original data source, the working
copy, the dirty flag, the view state fields, and the at-most-one open edit
context.  (The single shared editing surface itself is external; its
readouts enter through `EditorInput`.) -/
structure AppState where
  originalDataSource : List LanguageEntry
  modifiedDataSource : List LanguageEntry
  hasUnsavedChanges : Bool
  searchQuery : String
  isSearchActive : Bool
  sortState : Option (Nat × SortDir)
  collapsedColumns : List Nat
  currentPage : Nat
  rowsPerPage : Nat
  currentEditContext : Option EditContext
deriving Repr, DecidableEq

/-- The view-state projection of the application state. -/
def viewStateOf (s : AppState) : ViewState :=
  { searchQuery := s.searchQuery
    isSearchActive := s.isSearchActive
    sortState := s.sortState
    collapsedColumns := s.collapsedColumns
    currentPage := s.currentPage
    rowsPerPage := s.rowsPerPage }

/-- `closeEditModal()`: destroy the edit context (also resets the external
editing surface; no matrix mutation). -/
def closeEditModal (s : AppState) : AppState :=
  { s with currentEditContext := none }

/-- `handleCellClick` / `openEditModal`: rejected (no-op) while an edit is
already open; otherwise capture the edit context — the cell's current
working value, its fingerprint (`parsedValue` is the parsed form of that
value) and the editor's rendered text of it (`editorText`, the external
editor's `getText()` after loading the value). -/
def handleCellClick (s : AppState) (key : String) (langIndex : Nat)
    (parsedValue : NodeList) (editorText : String) : AppState :=
  match s.currentEditContext with
  | some _ => s
  | none =>
      let currentValue := lookupValue (s.modifiedDataSource[langIndex]?.getD default) key
      let ec : EditContext :=
        { key := key
          langIndex := langIndex
          originalValue := currentValue
          originalAttributes := extractHTMLAttributes parsedValue
          originalText := editorText
          codeViewInitialHTML := none }
      { s with currentEditContext := some ec }

/-- `modifiedDataSource[langIndex].Translations[key] = newValue` : write the
cell in place (an out-of-range index, unreachable from the UI, changes
nothing). -/
def setCellValue (data : List LanguageEntry) (langIndex : Nat) (key value : String) :
    List LanguageEntry :=
  match data[langIndex]? with
  | none => data
  | some lang =>
      data.set langIndex { lang with Translations := setAttribute lang.Translations key value }

/-- `handleModalSave()`: a no-op without an open edit context; otherwise
compute the value to persist, write it into the working matrix, raise the
unsaved-changes flag unconditionally, and destroy the edit context. -/
def handleModalSave (s : AppState) (inp : EditorInput) : AppState :=
  match s.currentEditContext with
  | none => s
  | some ec =>
      { s with
          modifiedDataSource :=
            setCellValue s.modifiedDataSource ec.langIndex ec.key (decideNewValue ec inp)
          hasUnsavedChanges := true
          currentEditContext := none }

/-- `performSearch(query)`: close (cancel) any open edit, record the query,
activate search when the trimmed query is non-blank, clear the sort state
when search is active, and reset to page 1. -/
def performSearch (s : AppState) (query : String) : AppState :=
  let active := jsTrim query ≠ ""
  { s with
      currentEditContext := none
      searchQuery := query
      isSearchActive := active
      sortState := if active then none else s.sortState
      currentPage := 1 }

/-- The projection pagination math is computed from: the filtered results
when search is active, else the working matrix. -/
def currentViewData (s : AppState) : List LanguageEntry :=
  if s.isSearchActive then getSearchResults s.modifiedDataSource s.searchQuery
  else s.modifiedDataSource

/-- `Math.ceil(totalRows / rowsPerPage)` for the positive page sizes the UI
offers. -/
def ceilDiv (a b : Nat) : Nat := (a + b - 1) / b

/-- The total page count `goToPage` validates against. -/
def totalPagesOf (s : AppState) : Nat :=
  ceilDiv (getAllKeys (currentViewData s)).length s.rowsPerPage

/-- `goToPage(page)`: a requested page outside `[1, totalPages]` is rejected
before anything happens (the open edit, if any, stays open); a valid page
closes (cancels) any open edit and becomes current. -/
def goToPage (s : AppState) (page : Int) : AppState :=
  if page < 1 ∨ (totalPagesOf s : Int) < page then s
  else { s with currentEditContext := none, currentPage := page.toNat }

/-- `handleRowsPerPageChange`: close (cancel) any open edit, record the new
page size, reset to page 1. -/
def handleRowsPerPageChange (s : AppState) (newRowsPerPage : Nat) : AppState :=
  { s with
      currentEditContext := none
      rowsPerPage := newRowsPerPage
      currentPage := 1 }

/-- `handleDiscardChanges()`: replace the working matrix with a fresh copy
of the original, clear the unsaved-changes flag, and close (cancel) any open
edit; the in-flight edit is never committed. -/
def handleDiscardChanges (s : AppState) : AppState :=
  { s with
      modifiedDataSource := s.originalDataSource
      hasUnsavedChanges := false
      currentEditContext := none }

/-! ## Concrete instances used to evaluate the statements -/

/-- A one-language working matrix. -/
def wC1 : List LanguageEntry := [⟨"en", [("k", "v")]⟩]

/-- A view state with no search, no sort, page 1 of 25. -/
def vsC1 : ViewState := ⟨"", false, none, [], 1, 25⟩

/-- The single row `renderTable wC1 vsC1` produces. -/
def rowC1 : Row := ⟨"k", [⟨0, "v", false⟩]⟩

/-- One language whose column 0 values are "banana" and "apple". -/
def wSortW : List LanguageEntry := [⟨"en", [("k1", "banana"), ("k2", "apple")]⟩]

/-- The two-language matrix of the specification's search scenario. -/
def wC3 : List LanguageEntry := [⟨"en", [("greet", "hi")]⟩, ⟨"hr", [("greet", "bok")]⟩]

/-- An edit context over plain text "v" with an empty fingerprint. -/
def c4Ec : EditContext := ⟨"k", 0, "v", ⟨[], []⟩, "v\n", none⟩

/-- A design-mode editor readout: unformatted delta, text edited to "x". -/
def c4Inp : EditorInput := ⟨false, "", [⟨[], .str "x\n"⟩], "x\n", NodeList.nil⟩

/-- The parsed body `<p>hi</p>` — default tag, no attributes. -/
def mPW : NodeList := .cons (.elem "p" [] (.cons (.text "hi") .nil)) .nil

/-- The parsed body `<div id="x">hi</div>`. -/
def mDivW : NodeList := .cons (.elem "div" [("id", "x")] (.cons (.text "hi") .nil)) .nil

/-- The parsed body `<p><span>hi</span><span>hi</span></p>`: two inline
candidates with identical text content. -/
def c6L : NodeList :=
  .cons (.elem "p" []
    (.cons (.elem "span" [] (.cons (.text "hi") .nil))
      (.cons (.elem "span" [] (.cons (.text "hi") .nil)) .nil))) .nil

/-- A fingerprint inline entry recorded from `<cite id="x">hi</cite>`. -/
def c6E : InlineEntry := ⟨"cite", [("id", "x")], "hi", "hihi"⟩

/-- The record of the first matching candidate of `c6L`. -/
def c6Info : ElemInfo := ⟨"span", [], "hi"⟩

/-- An original data source whose only cell holds "a". -/
def c7Original : List LanguageEntry := [⟨"en", [("k", "a")]⟩]

/-- A state where the working cell was previously saved as "b" (differing
from the original "a") and no edit is open. -/
def c7Base : AppState :=
  { originalDataSource := c7Original
    modifiedDataSource := [⟨"en", [("k", "b")]⟩]
    hasUnsavedChanges := true
    searchQuery := ""
    isSearchActive := false
    sortState := none
    collapsedColumns := []
    currentPage := 1
    rowsPerPage := 25
    currentEditContext := none }

/-- `c7Base` after clicking the cell: an edit on `(k, 0)` is open and the
working value is still "b". -/
def c7Open : AppState := handleCellClick c7Base "k" 0 (.cons (.text "b") .nil) "b\n"

/-- The edit context `handleCellClick` captures over `c7Base`. -/
def c7Ec : EditContext :=
  ⟨"k", 0, "b", extractHTMLAttributes (.cons (.text "b") .nil), "b\n", none⟩

/-- A one-key state: one page of results at 25 rows per page. -/
def c9S : AppState :=
  { originalDataSource := wC1
    modifiedDataSource := wC1
    hasUnsavedChanges := false
    searchQuery := ""
    isSearchActive := false
    sortState := none
    collapsedColumns := []
    currentPage := 1
    rowsPerPage := 25
    currentEditContext := none }

/-- The edit context of the identity-save scenario: the cell already holds
"v" and the editor was not touched. -/
def c10Ec : EditContext := ⟨"k", 0, "v", ⟨[], []⟩, "v\n", none⟩

/-- A state whose working matrix equals its original and whose open edit is
`c10Ec`. -/
def c10State : AppState :=
  { originalDataSource := wC1
    modifiedDataSource := wC1
    hasUnsavedChanges := false
    searchQuery := ""
    isSearchActive := false
    sortState := none
    collapsedColumns := []
    currentPage := 1
    rowsPerPage := 25
    currentEditContext := some c10Ec }

/-- A design-mode readout with no formatting and unchanged text: the
decision table's identity case. -/
def c10Input : EditorInput :=
  ⟨false, "", [⟨[], .str "v\n"⟩], "v\n", .cons (.elem "p" [] (.cons (.text "v") .nil)) .nil⟩

/-! ## Helper lemmas -/

theorem insertKey_nodup (acc : List String) (k : String) (h : acc.Nodup) :
    (insertKey acc k).Nodup := by
  unfold insertKey
  split
  · exact h
  · rename_i hk
    simp [List.nodup_append, h, hk]

theorem foldl_insertKey_nodup {β : Type} (f : β → String) :
    ∀ (l : List β) (acc : List String), acc.Nodup →
      (l.foldl (fun a x => insertKey a (f x)) acc).Nodup := by
  intro l
  induction l with
  | nil => intro acc h; simpa using h
  | cons x xs ih => intro acc h; simpa using ih _ (insertKey_nodup _ _ h)

theorem getAllKeys_nodup (data : List LanguageEntry) : (getAllKeys data).Nodup := by
  suffices h : ∀ (l : List LanguageEntry) (acc : List String), acc.Nodup →
      (l.foldl
        (fun acc lang => lang.Translations.foldl (fun a kv => insertKey a kv.1) acc)
        acc).Nodup by
    exact h data [] List.nodup_nil
  intro l
  induction l with
  | nil => intro acc h; simpa using h
  | cons x xs ih =>
      intro acc h
      simpa using ih _ (foldl_insertKey_nodup Prod.fst x.Translations acc h)

theorem renderTableBody_snd (working : List LanguageEntry) (vs : ViewState)
    (data : List LanguageEntry) :
    (renderTableBody working vs data).2 = (getAllKeys data).length := by
  by_cases h : data.length = 0
  · have hd : data = [] := List.length_eq_zero.mp h
    subst hd
    simp [renderTableBody, getAllKeys]
  · simp [renderTableBody, h]

/-! ## Claim theorems -/

/-- Claim C8: the total row count equals the number of distinct keys of the
current projection, computed before the page slice, and is unchanged by any
page number or page size. -/
theorem total_rows_before_slicing (working : List LanguageEntry) (vs : ViewState) :
    (renderTable working vs).2 = (getAllKeys (dataToRender working vs)).length ∧
    (getAllKeys (dataToRender working vs)).Nodup ∧
    ∀ p r, (renderTable working { vs with currentPage := p, rowsPerPage := r }).2
        = (renderTable working vs).2 := by
  refine ⟨renderTableBody_snd working vs _, getAllKeys_nodup _, fun p r => ?_⟩
  rw [renderTable, renderTable, renderTableBody_snd, renderTableBody_snd]
  rfl

/-- Claim C9: a requested page number outside `[1, totalPages]` leaves the
whole application state unchanged — nothing is clamped, the open edit (if
any) stays open, the matrix and view state are untouched. -/
theorem out_of_range_pagination_noop (s : AppState) (page : Int)
    (h : page < 1 ∨ (totalPagesOf s : Int) < page) : goToPage s page = s := by
  simp only [goToPage, if_pos h]

/-- Witness for C9: page 5 of a one-page state is rejected unchanged. -/
theorem out_of_range_pagination_noop_witness :
    ((5 : Int) < 1 ∨ (totalPagesOf c9S : Int) < 5) ∧ goToPage c9S 5 = c9S :=
  ⟨by decide, out_of_range_pagination_noop c9S 5 (by decide)⟩

/-- Claim C5: a fingerprint with only null block placeholders and no inline
entries reapplies as the identity on any second markup body. -/
theorem reapply_roundtrip_noop (markup markup2 : NodeList)
    (hb : (extractHTMLAttributes markup).blockElements.all Option.isNone = true)
    (hi : (extractHTMLAttributes markup).inlineElements = []) :
    reapplyHTMLAttributes (extractHTMLAttributes markup) markup2 = markup2 := by
  have h1 : (extractHTMLAttributes markup).blockElements.any Option.isSome = false := by
    simp only [List.any_eq_false]
    intro x hx
    have h2 := List.all_eq_true.mp hb x hx
    cases x
    · simp
    · simp at h2
  simp [reapplyHTMLAttributes, h1, hi]

/-- Witness for C5: the fingerprint of `<p>hi</p>` (one null placeholder, no
inlines) leaves `<div id="x">hi</div>` unchanged. -/
theorem reapply_roundtrip_noop_witness :
    ((extractHTMLAttributes mPW).blockElements.all Option.isNone = true ∧
     (extractHTMLAttributes mPW).inlineElements = []) ∧
    reapplyHTMLAttributes (extractHTMLAttributes mPW) mDivW = mDivW :=
  ⟨⟨by decide, by decide⟩, reapply_roundtrip_noop mPW mDivW (by decide) (by decide)⟩

/-- Counterexample to claim C7 as stated: with an original value "a" and a
previously saved working value "b", opening an edit on the cell and then
performing discard-all clears the edit without saving, but the working value
of the edited cell becomes "a" — the original — rather than staying at "b",
the value it had when the edit opened. -/
theorem discard_all_counterexample :
    c7Open.currentEditContext = some c7Ec ∧
    c7Open.modifiedDataSource = c7Base.modifiedDataSource ∧
    lookupValue ((c7Open.modifiedDataSource[0]?).getD default) "k" = "b" ∧
    (handleDiscardChanges c7Open).currentEditContext = none ∧
    lookupValue (((handleDiscardChanges c7Open).modifiedDataSource[0]?).getD default) "k" = "a" ∧
    ("a" : String) ≠ "b" := by
  refine ⟨by decide, by decide, by decide, by decide, by decide, by decide⟩

/-- Claim C7 (amended): while an edit is open, a search, a pagination
navigation that proceeds, and a page-size change each clear the edit context
and leave the working matrix — hence the edited cell — exactly as it was;
discard-all clears the edit context without committing the in-flight edit,
but resets the whole working matrix to the original data source, so the
edited cell reverts to its original value. -/
theorem competing_transitions_cancel (s : AppState) (ec : EditContext)
    (q : String) (page : Int) (n : Nat)
    (h : s.currentEditContext = some ec) :
    ((performSearch s q).currentEditContext = none
      ∧ (performSearch s q).modifiedDataSource = s.modifiedDataSource) ∧
    (¬(page < 1 ∨ (totalPagesOf s : Int) < page) →
      (goToPage s page).currentEditContext = none
        ∧ (goToPage s page).modifiedDataSource = s.modifiedDataSource) ∧
    ((handleRowsPerPageChange s n).currentEditContext = none
      ∧ (handleRowsPerPageChange s n).modifiedDataSource = s.modifiedDataSource) ∧
    ((handleDiscardChanges s).currentEditContext = none
      ∧ (handleDiscardChanges s).modifiedDataSource = s.originalDataSource) := by
  refine ⟨⟨rfl, rfl⟩, fun hp => ?_, ⟨rfl, rfl⟩, ⟨rfl, rfl⟩⟩
  rw [goToPage, if_neg hp]
  exact ⟨rfl, rfl⟩

/-- Witness for the amended C7, on the concrete open-edit state `c7Open`. -/
theorem competing_transitions_cancel_witness :
    c7Open.currentEditContext = some c7Ec ∧
    (performSearch c7Open "x").currentEditContext = none ∧
    (performSearch c7Open "x").modifiedDataSource = c7Open.modifiedDataSource ∧
    (goToPage c7Open 1).currentEditContext = none ∧
    (goToPage c7Open 1).modifiedDataSource = c7Open.modifiedDataSource ∧
    (handleRowsPerPageChange c7Open 50).currentEditContext = none ∧
    (handleDiscardChanges c7Open).currentEditContext = none := by
  have h : c7Open.currentEditContext = some c7Ec := by decide
  have main := competing_transitions_cancel c7Open c7Ec "x" 1 50 h
  have hp : ¬((1 : Int) < 1 ∨ (totalPagesOf c7Open : Int) < 1) := by decide
  exact ⟨h, main.1.1, main.1.2, (main.2.1 hp).1, (main.2.1 hp).2,
    main.2.2.1.1, main.2.2.2.1⟩

/-- Claim C10: every completed save raises the unsaved-changes flag, even an
identity save that persists a value byte-identical to the cell's original —
so the flag being raised does not imply the working matrix differs from the
original. -/
theorem save_sets_unsaved_flag :
    (∀ (s : AppState) (inp : EditorInput) (ec : EditContext),
        s.currentEditContext = some ec →
        (handleModalSave s inp).hasUnsavedChanges = true) ∧
    ((handleModalSave c10State c10Input).hasUnsavedChanges = true ∧
     (handleModalSave c10State c10Input).modifiedDataSource = c10State.originalDataSource ∧
     c10State.modifiedDataSource = c10State.originalDataSource) := by
  constructor
  · intro s inp ec h
    simp [handleModalSave, h]
  · exact ⟨by decide, by decide, by decide⟩

/-- Witness for C10 at the concrete identity-save state. -/
theorem save_sets_unsaved_flag_witness :
    (handleModalSave c10State c10Input).hasUnsavedChanges = true :=
  save_sets_unsaved_flag.1 c10State c10Input c10Ec (by decide)

theorem renderTableBody_mem (working : List LanguageEntry) (vs : ViewState)
    (data : List LanguageEntry) (row : Row)
    (hrow : row ∈ (renderTableBody working vs data).1) :
    ∃ key, row = renderRow working vs.collapsedColumns key := by
  by_cases h : data.length = 0
  · rw [renderTableBody, if_pos h] at hrow
    simp at hrow
  · rw [renderTableBody, if_neg h] at hrow
    simp only [List.mem_map] at hrow
    obtain ⟨key, -, hk⟩ := hrow
    exact ⟨key, hk.symm⟩

/-- Claim C1: every row the view produces has exactly one cell per working
matrix entry, in working-matrix order, and the cell at column `i` displays
`working[i].translations[key]` (empty when absent in that language) — never
a value of the filtered projection. -/
theorem column_stability (working : List LanguageEntry) (vs : ViewState) (row : Row)
    (hrow : row ∈ (renderTable working vs).1) :
    row.cells.length = working.length ∧
    ∀ (i : Nat) (lang : LanguageEntry), working[i]? = some lang →
      row.cells[i]? = some
        { columnIndex := i
          value := lookupValue lang row.key
          collapsed := vs.collapsedColumns.contains i } := by
  obtain ⟨key, hk⟩ := renderTableBody_mem working vs _ row hrow
  subst hk
  constructor
  · simp [renderRow]
  · intro i lang hlang
    have hi : i < working.length := by
      obtain ⟨h, -⟩ := List.getElem?_eq_some_iff.mp hlang
      exact h
    simp [renderRow, List.getElem?_range, hi, hlang]

/-- Witness for C1 at a concrete one-language view. -/
theorem column_stability_witness :
    rowC1 ∈ (renderTable wC1 vsC1).1 ∧
    (rowC1.cells.length = wC1.length ∧
     ∀ (i : Nat) (lang : LanguageEntry), wC1[i]? = some lang →
       rowC1.cells[i]? = some
         { columnIndex := i
           value := lookupValue lang rowC1.key
           collapsed := vsC1.collapsedColumns.contains i }) :=
  ⟨by decide, column_stability wC1 vsC1 rowC1 (by decide)⟩

/-- Claim C3: an active (non-blank) search keeps every language entry in
place and in order, each reduced to exactly the key/value pairs where the
case-insensitive literal term matches the key or the raw markup value (an
entry whose map empties stays in place); a blank term leaves the working
matrix unchanged.  (The escaped pattern is always valid, so the source's
invalid-pattern fallback to the working matrix never fires.) -/
theorem search_filter_semantics (working : List LanguageEntry) (q : String) :
    (jsTrim q = "" → getSearchResults working q = working) ∧
    (jsTrim q ≠ "" →
      (getSearchResults working q).length = working.length ∧
      (∀ (i : Nat) (lang : LanguageEntry), working[i]? = some lang →
        (getSearchResults working q)[i]? = some
          { LanguageTwoLetter := lang.LanguageTwoLetter
            Translations := lang.Translations.filter fun kv =>
              matchesQuery q kv.1 || matchesQuery q kv.2 }) ∧
      (∀ (lang : LanguageEntry) (k v : String), lang ∈ working →
        ((k, v) ∈ lang.Translations.filter
            (fun kv => matchesQuery q kv.1 || matchesQuery q kv.2)
          ↔ (k, v) ∈ lang.Translations ∧ (matchesQuery q k || matchesQuery q v) = true))) := by
  constructor
  · intro h
    simp [getSearchResults, h]
  · intro h
    refine ⟨?_, ?_, ?_⟩
    · simp [getSearchResults, h]
    · intro i lang hlang
      simp [getSearchResults, h, hlang]
    · intro lang k v hmem
      simp [List.mem_filter]

/-- Witness for C3 on the specification's two-language scenario, searching
"hi": the `en` entry keeps `greet`, the `hr` entry stays in place with an
empty map. -/
theorem search_filter_semantics_witness :
    (jsTrim "hi" ≠ "") ∧
    ((getSearchResults wC3 "hi").length = wC3.length ∧
     (∀ (i : Nat) (lang : LanguageEntry), wC3[i]? = some lang →
       (getSearchResults wC3 "hi")[i]? = some
         { LanguageTwoLetter := lang.LanguageTwoLetter
           Translations := lang.Translations.filter fun kv =>
             matchesQuery "hi" kv.1 || matchesQuery "hi" kv.2 }) ∧
     (∀ (lang : LanguageEntry) (k v : String), lang ∈ wC3 →
       ((k, v) ∈ lang.Translations.filter
           (fun kv => matchesQuery "hi" kv.1 || matchesQuery "hi" kv.2)
         ↔ (k, v) ∈ lang.Translations ∧ (matchesQuery "hi" k || matchesQuery "hi" v) = true))) :=
  ⟨by decide, (search_filter_semantics wC3 "hi").2 (by decide)⟩

theorem stripTrailingNewline_eq_iff (a b : String)
    (ha : a.data.getLast? = some '\n') (hb : b.data.getLast? = some '\n') :
    (stripTrailingNewline a = stripTrailingNewline b) ↔ a = b := by
  constructor
  · intro h
    rw [stripTrailingNewline, if_pos ha, stripTrailingNewline, if_pos hb] at h
    have hd : a.data.dropLast = b.data.dropLast := by
      injection h
    have ha2 : a.data.dropLast ++ ['\n'] = a.data :=
      List.dropLast_append_getLast? '\n' ha
    have hb2 : b.data.dropLast ++ ['\n'] = b.data :=
      List.dropLast_append_getLast? '\n' hb
    have hab : a.data = b.data := by rw [← ha2, ← hb2, hd]
    exact congrArg String.mk hab
  · intro h
    rw [h]

/-- Claim C4: a rich-mode save whose delta reports no formatting attributes
and no embeds persists `originalValue` when the rendered plain text (the
editor's text with its trailing newline sentinel removed) is unchanged from
the one captured at open, and otherwise persists the new plain text verbatim,
with no wrapper markup.  The newline hypotheses are the editor invariant:
Quill's `getText()` always ends in a newline. -/
theorem rich_save_no_formatting (ec : EditContext) (inp : EditorInput)
    (hmode : inp.isCodeViewActive = false)
    (hfmt : deltaHasFormatting inp.delta = false)
    (hcur : inp.currentText.data.getLast? = some '\n')
    (horig : ec.originalText.data.getLast? = some '\n') :
    decideNewValue ec inp =
      if stripTrailingNewline inp.currentText = stripTrailingNewline ec.originalText
      then ec.originalValue
      else stripTrailingNewline inp.currentText := by
  rw [decideNewValue, hmode]
  simp only [Bool.false_eq_true, if_false, hfmt]
  rw [show (if inp.currentText = ec.originalText then ec.originalValue
      else stripTrailingNewline inp.currentText) =
    if stripTrailingNewline inp.currentText = stripTrailingNewline ec.originalText
      then ec.originalValue else stripTrailingNewline inp.currentText from ?_]
  · by_cases h : stripTrailingNewline inp.currentText = stripTrailingNewline ec.originalText
    · rw [if_pos h, if_pos ((stripTrailingNewline_eq_iff _ _ hcur horig).mp h)]
    · rw [if_neg h, if_neg (fun he => h (by rw [he]))]

/-- Witness for C4: an unformatted delta with text edited from "v" to "x"
persists "x". -/
theorem rich_save_no_formatting_witness :
    (c4Inp.isCodeViewActive = false ∧ deltaHasFormatting c4Inp.delta = false ∧
     c4Inp.currentText.data.getLast? = some '\n' ∧
     c4Ec.originalText.data.getLast? = some '\n') ∧
    decideNewValue c4Ec c4Inp =
      (if stripTrailingNewline c4Inp.currentText = stripTrailingNewline c4Ec.originalText
       then c4Ec.originalValue
       else stripTrailingNewline c4Inp.currentText) :=
  ⟨⟨rfl, by decide, by decide, by decide⟩,
   rich_save_no_formatting c4Ec c4Inp rfl (by decide) (by decide) (by decide)⟩

theorem sortLe_trans (working : List LanguageEntry) (columnIndex : Nat) (dir : SortDir) :
    ∀ (a b c : String), sortLe working columnIndex dir a b →
      sortLe working columnIndex dir b c → sortLe working columnIndex dir a c := by
  intro a b c h1 h2
  cases dir
  · simp only [sortLe, Bool.not_eq_true', decide_eq_false_iff_not, not_lt] at h1 h2 ⊢
    exact le_trans h1 h2
  · simp only [sortLe, Bool.not_eq_true', decide_eq_false_iff_not, not_lt] at h1 h2 ⊢
    exact le_trans h2 h1

theorem sortLe_total (working : List LanguageEntry) (columnIndex : Nat) (dir : SortDir) :
    ∀ (a b : String),
      sortLe working columnIndex dir a b || sortLe working columnIndex dir b a := by
  intro a b
  cases dir <;>
    simp only [sortLe, Bool.or_eq_true, Bool.not_eq_true', decide_eq_false_iff_not,
      not_lt] <;>
    exact le_total _ _

/-- Claim C2: with a sort directive on a valid column, the key list is stably
sorted by the lowercased rendered text of the working-matrix value at that
column (empty when the key is absent in that language): the output is a
permutation of the input, pairwise ordered by the directive's comparator,
ties keep their prior relative order, and the compared string is always read
from the working matrix. -/
theorem sort_correctness (working : List LanguageEntry) (columnIndex : Nat)
    (dir : SortDir) (keys : List String) (hcol : columnIndex < working.length) :
    (applySortingToKeys working (some (columnIndex, dir)) keys).Perm keys ∧
    (applySortingToKeys working (some (columnIndex, dir)) keys).Pairwise
      (fun a b => sortLe working columnIndex dir a b = true) ∧
    (∀ a b : String, sortKey working columnIndex a = sortKey working columnIndex b →
      [a, b].Sublist keys →
      [a, b].Sublist (applySortingToKeys working (some (columnIndex, dir)) keys)) ∧
    (∀ key, sortKey working columnIndex key =
      jsToLower (getTextFromHTML ((working[columnIndex].Translations.lookup key).getD ""))) := by
  refine ⟨List.mergeSort_perm keys _,
    List.sorted_mergeSort (sortLe_trans working columnIndex dir)
      (sortLe_total working columnIndex dir) keys,
    ?_, ?_⟩
  · intro a b hk hsub
    refine List.pair_sublist_mergeSort (sortLe_trans working columnIndex dir)
      (sortLe_total working columnIndex dir) ?_ hsub
    cases dir <;> simp [sortLe, hk]
  · intro key
    rw [sortKey, List.getElem?_eq_getElem hcol]
    cases hl : working[columnIndex].Translations.lookup key <;>
      simp [lookupValue, hl]

/-- Witness for C2: the specification's sort scenario — column 0 ascending
over values "banana"/"apple" for keys k1/k2. -/
theorem sort_correctness_witness :
    0 < wSortW.length ∧
    ((applySortingToKeys wSortW (some (0, SortDir.asc)) ["k1", "k2"]).Perm ["k1", "k2"] ∧
     (applySortingToKeys wSortW (some (0, SortDir.asc)) ["k1", "k2"]).Pairwise
       (fun a b => sortLe wSortW 0 SortDir.asc a b = true) ∧
     (∀ a b : String, sortKey wSortW 0 a = sortKey wSortW 0 b →
       [a, b].Sublist ["k1", "k2"] →
       [a, b].Sublist (applySortingToKeys wSortW (some (0, SortDir.asc)) ["k1", "k2"])) ∧
     (∀ key, sortKey wSortW 0 key =
       jsToLower (getTextFromHTML ((wSortW[0].Translations.lookup key).getD "")))) :=
  ⟨by decide, sort_correctness wSortW 0 SortDir.asc ["k1", "k2"] (by decide)⟩

theorem node_rec_pair {P : Node → Prop} {Q : NodeList → Prop}
    (helem : ∀ t a c, Q c → P (Node.elem t a c))
    (htext : ∀ s, P (Node.text s))
    (hnil : Q NodeList.nil)
    (hcons : ∀ n l, P n → Q l → Q (NodeList.cons n l)) :
    (∀ n, P n) ∧ ∀ l, Q l :=
  ⟨fun n => Node.rec helem htext hnil hcons n,
   fun l => NodeList.rec helem htext hnil hcons l⟩

theorem applyInlineEntry_textContent (e : InlineEntry) :
    (∀ n, textContentN (applyInlineEntryN e n).1 = textContentN n) ∧
    ∀ l, textContentL (applyInlineEntryL e l).1 = textContentL l := by
  refine node_rec_pair ?_ ?_ ?_ ?_
  · intro t a c ih
    rw [applyInlineEntryN]
    split
    · rw [textContentN, textContentN]
    · rw [textContentN, textContentN]
      exact ih
  · intro s
    rfl
  · rfl
  · intro n l ihn ihl
    rw [applyInlineEntryL]
    by_cases h : (applyInlineEntryN e n).2 = true
    · simp only [h, if_true]
      simp only [textContentL]
      rw [ihn]
    · simp only [h, if_false]
      simp only [textContentL]
      rw [ihl]

theorem applyInlineEntry_spec (e : InlineEntry) :
    (∀ n, ((elemInfoN n).findIdx? (inlineMatches e) = none →
        applyInlineEntryN e n = (n, false)) ∧
      (∀ i info, (elemInfoN n).findIdx? (inlineMatches e) = some i →
        (elemInfoN n)[i]? = some info →
        (applyInlineEntryN e n).2 = true ∧
        elemInfoN (applyInlineEntryN e n).1 =
          (elemInfoN n).take i ++ transformInfo e info :: (elemInfoN n).drop (i + 1))) ∧
    ∀ l, ((elemInfoL l).findIdx? (inlineMatches e) = none →
        applyInlineEntryL e l = (l, false)) ∧
      (∀ i info, (elemInfoL l).findIdx? (inlineMatches e) = some i →
        (elemInfoL l)[i]? = some info →
        (applyInlineEntryL e l).2 = true ∧
        elemInfoL (applyInlineEntryL e l).1 =
          (elemInfoL l).take i ++ transformInfo e info :: (elemInfoL l).drop (i + 1)) := by
  refine node_rec_pair ?_ ?_ ?_ ?_
  · intro t a c ih
    have hinfo : elemInfoN (Node.elem t a c) =
        ⟨t, a, jsTrim (textContentL c)⟩ :: elemInfoL c := by
      rw [elemInfoN]
    have hm0 : inlineMatches e ⟨t, a, jsTrim (textContentL c)⟩ =
        (inlineTags.contains t && (jsTrim (textContentL c) == e.textContent)) := rfl
    by_cases hm : (inlineTags.contains t && (jsTrim (textContentL c) == e.textContent)) = true
    · have happ : applyInlineEntryN e (Node.elem t a c) =
          (Node.elem e.originalTag (setAttrs a e.attrs) c, true) := by
        rw [applyInlineEntryN, if_pos hm]
      have hfind : (elemInfoN (Node.elem t a c)).findIdx? (inlineMatches e) = some 0 := by
        rw [hinfo]
        simp only [List.findIdx?_cons, hm0, hm, if_true]
      constructor
      · intro hnone
        rw [hfind] at hnone
        exact absurd hnone (by simp)
      · intro i info hi hget
        rw [hfind] at hi
        injection hi with hi
        subst hi
        rw [hinfo] at hget
        simp only [List.getElem?_cons_zero, Option.some.injEq] at hget
        subst hget
        refine ⟨by rw [happ], ?_⟩
        rw [happ, hinfo, elemInfoN]
        simp [transformInfo]
    · have hm' : inlineMatches e ⟨t, a, jsTrim (textContentL c)⟩ = false := by
        rw [hm0]
        exact eq_false_of_ne_true hm
      have happ : applyInlineEntryN e (Node.elem t a c) =
          (Node.elem t a (applyInlineEntryL e c).1, (applyInlineEntryL e c).2) := by
        rw [applyInlineEntryN, if_neg hm]
      cases hfindc : (elemInfoL c).findIdx? (inlineMatches e) with
      | none =>
          have hid : applyInlineEntryL e c = (c, false) := ih.1 hfindc
          have hfull : (elemInfoN (Node.elem t a c)).findIdx? (inlineMatches e) = none := by
            rw [hinfo]
            simp [List.findIdx?_cons, hm', hfindc]
          constructor
          · intro _
            rw [happ, hid]
          · intro i info hi _
            rw [hfull] at hi
            exact absurd hi (by simp)
      | some j =>
          have hfull : (elemInfoN (Node.elem t a c)).findIdx? (inlineMatches e)
              = some (j + 1) := by
            rw [hinfo]
            simp [List.findIdx?_cons, hm', hfindc]
          constructor
          · intro hnone
            rw [hfull] at hnone
            exact absurd hnone (by simp)
          · intro i info hi hget
            rw [hfull] at hi
            injection hi with hi
            subst hi
            rw [hinfo] at hget
            simp only [List.getElem?_cons_succ] at hget
            obtain ⟨hflag, hlist⟩ := ih.2 j info hfindc hget
            refine ⟨by rw [happ]; exact hflag, ?_⟩
            rw [happ, elemInfoN, (applyInlineEntry_textContent e).2 c, hlist, hinfo]
            simp
  · intro s
    constructor
    · intro _
      rfl
    · intro i info hi _
      rw [elemInfoN] at hi
      exact absurd hi (by simp)
  · constructor
    · intro _
      rfl
    · intro i info hi _
      rw [elemInfoL] at hi
      exact absurd hi (by simp)
  · intro n l ihn ihl
    have hinfo : elemInfoL (NodeList.cons n l) = elemInfoN n ++ elemInfoL l := by
      rw [elemInfoL]
    cases hfindA : (elemInfoN n).findIdx? (inlineMatches e) with
    | some i =>
        have hiLen : i < (elemInfoN n).length :=
          (List.findIdx?_eq_some_iff_findIdx_eq.mp hfindA).1
        obtain ⟨hflag, hlist⟩ :=
          ihn.2 i (elemInfoN n)[i] hfindA (List.getElem?_eq_getElem hiLen)
        have happ : applyInlineEntryL e (NodeList.cons n l) =
            (NodeList.cons (applyInlineEntryN e n).1 l, true) := by
          rw [applyInlineEntryL]
          simp only [hflag, if_true]
        have hfull : (elemInfoL (NodeList.cons n l)).findIdx? (inlineMatches e)
            = some i := by
          rw [hinfo, List.findIdx?_append, hfindA]
          rfl
        constructor
        · intro hnone
          rw [hfull] at hnone
          exact absurd hnone (by simp)
        · intro i2 info hi2 hget
          rw [hfull] at hi2
          injection hi2 with hi2
          subst hi2
          rw [hinfo, List.getElem?_append, if_pos hiLen,
            List.getElem?_eq_getElem hiLen] at hget
          injection hget with hget
          subst hget
          refine ⟨by rw [happ], ?_⟩
          rw [happ, elemInfoL, hlist, hinfo,
            List.take_append_of_le_length (Nat.le_of_lt hiLen),
            List.drop_append_of_le_length hiLen]
          simp
    | none =>
        have hid : applyInlineEntryN e n = (n, false) := ihn.1 hfindA
        have happ : applyInlineEntryL e (NodeList.cons n l) =
            (NodeList.cons n (applyInlineEntryL e l).1, (applyInlineEntryL e l).2) := by
          rw [applyInlineEntryL, hid]
          simp
        cases hfindB : (elemInfoL l).findIdx? (inlineMatches e) with
        | none =>
            have hid2 : applyInlineEntryL e l = (l, false) := ihl.1 hfindB
            have hfull : (elemInfoL (NodeList.cons n l)).findIdx? (inlineMatches e)
                = none := by
              rw [hinfo, List.findIdx?_append, hfindA, hfindB]
              rfl
            constructor
            · intro _
              rw [happ, hid2]
            · intro i info hi _
              rw [hfull] at hi
              exact absurd hi (by simp)
        | some j =>
            have hfull : (elemInfoL (NodeList.cons n l)).findIdx? (inlineMatches e)
                = some (j + (elemInfoN n).length) := by
              rw [hinfo, List.findIdx?_append, hfindA, hfindB]
              rfl
            constructor
            · intro hnone
              rw [hfull] at hnone
              exact absurd hnone (by simp)
            · intro i info hi hget
              rw [hfull] at hi
              injection hi with hi
              subst hi
              rw [hinfo, List.getElem?_append,
                if_neg (by omega), Nat.add_sub_cancel] at hget
              obtain ⟨hflag, hlist⟩ := ihl.2 j info hfindB hget
              refine ⟨by rw [happ]; exact hflag, ?_⟩
              rw [happ, elemInfoL, hlist, hinfo]
              rw [show j + (elemInfoN n).length = (elemInfoN n).length + j from
                Nat.add_comm _ _]
              rw [List.take_append, show (elemInfoN n).length + j + 1
                  = (elemInfoN n).length + (j + 1) from by omega, List.drop_append]
              simp

/-- Claim C6: inline reapplication of a fingerprint entry is first-match in
document order: scanning the pre-order element sequence, the first element
of the inline tag set whose trimmed text equals the entry's recorded text —
and only that element — has its tag replaced by the recorded original tag
and the recorded attributes set on it; every other element record is
untouched, and with no matching element the tree is returned unchanged.  In
particular, of two candidates with identical text, the earlier one in
document order receives the substitution. -/
theorem inline_reapply_first_match (e : InlineEntry) (l : NodeList) :
    ((elemInfoL l).findIdx? (inlineMatches e) = none →
      applyInlineEntryL e l = (l, false)) ∧
    (∀ i info, (elemInfoL l).findIdx? (inlineMatches e) = some i →
      (elemInfoL l)[i]? = some info →
      (applyInlineEntryL e l).2 = true ∧
      elemInfoL (applyInlineEntryL e l).1 =
        (elemInfoL l).take i ++ transformInfo e info :: (elemInfoL l).drop (i + 1)) :=
  (applyInlineEntry_spec e).2 l

/-- Witness for C6: in `<p><span>hi</span><span>hi</span></p>` the entry
recorded from `<cite id="x">hi</cite>` lands on the first span (document
order index 1 of the element sequence), replacing its tag and setting its
attributes; the second span is untouched. -/
theorem inline_reapply_first_match_witness :
    ((elemInfoL c6L).findIdx? (inlineMatches c6E) = some 1 ∧
     (elemInfoL c6L)[1]? = some c6Info) ∧
    (applyInlineEntryL c6E c6L).2 = true ∧
    elemInfoL (applyInlineEntryL c6E c6L).1 =
      (elemInfoL c6L).take 1 ++ transformInfo c6E c6Info :: (elemInfoL c6L).drop 2 :=
  ⟨⟨by decide, by decide⟩,
   (inline_reapply_first_match c6E c6L).2 1 c6Info (by decide) (by decide)⟩

end LanguageTable
